import Mathlib

/-!
Verification development for the RAG_App repository.

The first half embeds, shallowly, the frontend code that is present in the
repository sources (src/frontend/lib/api/client.ts,
src/frontend/lib/utils/chatUtils.ts, src/frontend/components/chat-window.tsx).
The second half models the backend ingestion/registry/retrieval core: the
Python backend (backend/services, backend/utils document registry,
backend/processing) is part of the repository but its source files are not
available here, so those definitions are modelled from the design
specification, as marked in their doc comments.
-/

deriving instance DecidableEq for Except

namespace RagApp

/-- Whitespace trimming of the character list of a string, the semantics of
the JS String.prototype.trim used by the frontend client. Defined
structurally so that it evaluates inside the kernel. -/
def trimChars (l : List Char) : List Char :=
  ((l.dropWhile Char.isWhitespace).reverse.dropWhile Char.isWhitespace).reverse

/-- JS String.prototype.trim over Lean strings. -/
def jsTrim (s : String) : String :=
  ⟨trimChars s.data⟩

/-- JS String.prototype.split with a one-character separator, over character
lists: split("") is [""], and separators at the ends produce empty groups,
as in JS. -/
def splitOnChar (sep : Char) : List Char → List (List Char)
  | [] => [[]]
  | c :: cs =>
    if c = sep then [] :: splitOnChar sep cs
    else
      match splitOnChar sep cs with
      | [] => [[c]]
      | g :: gs => (c :: g) :: gs

/-- JS String.prototype.substring(0, n), over Lean strings. -/
def jsTake (s : String) (n : Nat) : String :=
  ⟨s.data.take n⟩

/-- Body of the JSON request the frontend chat client sends to POST /api/chat.
Embedded from src/frontend/lib/api/client.ts (chat): the body always holds the
trimmed question and the validated conversation id, plus the optional turn
index. -/
structure ChatBody where
  question : String
  conversation_id : String
  turn_index : Option Int
deriving DecidableEq

/-- Embedded from src/frontend/lib/api/client.ts, function chat (lines 62-93).
Validates the question and the conversation id and builds the request body.
An Except.error models a thrown Error: both throws happen before the fetch
call, which the source only reaches in the branch modelled by Except.ok.
A JS string argument is falsy when it is undefined or empty, so the
conversation id is an Option String with the empty string checked as well. -/
def chatRequest (question : String) (conversationId : Option String)
    (turnIndex : Option Int) : Except String ChatBody :=
  if question = "" ∨ jsTrim question = "" then
    .error ("Question cannot be empty")
  else
    match conversationId with
    | none => .error ("Conversation ID is required")
    | some cid =>
      if cid = "" then .error ("Conversation ID is required")
      else .ok { question := jsTrim question, conversation_id := cid, turn_index := turnIndex }

/-- Supported upload extensions hard-coded in src/frontend/lib/api/client.ts,
function uploadFile (line 136). -/
def supportedExtensions : List String := ["pdf", "txt", "docx", "doc"]

/-- Embedded from src/frontend/lib/api/client.ts, uploadFile (line 135):
the JS expression file.name.split('.').pop()?.toLowerCase(). String.split
never yields an empty array, so pop always yields a string. -/
def fileExtOf (name : String) : String :=
  ⟨((splitOnChar '.' name.data).getLastD []).map Char.toLower⟩

/-- Embedded from src/frontend/lib/api/client.ts, uploadFile (lines 129-177).
Validates the extension against supportedExtensions and, on success, returns
the multipart form fields actually sent to POST /api/upload, as name-value
pairs. The source function takes only the File argument and appends only the
field named file to the FormData; the call site in chat-window.tsx
(handleFileUpload) passes a second argument, chatId, which does not exist in
the signature, so no conversation identifier is part of the request. -/
def uploadFileRequest (fileName : String) : Except String (List (String × String)) :=
  let fileExt := fileExtOf fileName
  if fileExt = "" ∨ fileExt ∉ supportedExtensions then
    .error ("Unsupported file type: ." ++ fileExt ++ ". Supported types: " ++
      String.intercalate ", " supportedExtensions)
  else
    .ok [("file", fileName)]

/-- Embedded from src/frontend/components/chat-window.tsx (line 553): the
accept attribute of the hidden file input, one entry per selectable
extension. -/
def chatWindowAcceptList : List String :=
  [".pdf", ".txt", ".doc", ".docx", ".xlsx", ".xls"]

/-- Embedded from src/frontend/lib/api/client.ts, SourceInfo. -/
structure SourceInfo where
  content : String
  metadata : List (String × String)
deriving DecidableEq

/-- Embedded from src/frontend/lib/utils/chatUtils.ts, UploadedFile. The TS
field named type is rendered ftype. -/
structure UploadedFile where
  id : String
  name : String
  ftype : String
  uploadTimestamp : Nat
  status : String
deriving DecidableEq

/-- Embedded from src/frontend/lib/utils/chatUtils.ts, Message. -/
structure Message where
  id : String
  role : String
  content : String
  timestamp : Nat
  sources : Option (List SourceInfo)
deriving DecidableEq

/-- Embedded from src/frontend/lib/utils/chatUtils.ts, ChatSession. -/
structure ChatSession where
  id : String
  title : String
  createdAt : Nat
  updatedAt : Nat
  messages : List Message
  uploadedFiles : List UploadedFile
deriving DecidableEq

/-- A TS Partial of ChatSession: each field optionally present, as passed to
updateChatSession in src/frontend/lib/utils/chatUtils.ts. -/
structure SessionUpdates where
  id : Option String
  title : Option String
  createdAt : Option Nat
  updatedAt : Option Nat
  messages : Option (List Message)
  uploadedFiles : Option (List UploadedFile)
deriving DecidableEq

/-- The JS object spread in updateChatSession, lines 111-115 of
src/frontend/lib/utils/chatUtils.ts: fields of the updates override those of
the session, and updatedAt is then overwritten with the current time. -/
def applySessionUpdates (s : ChatSession) (u : SessionUpdates) (now : Nat) : ChatSession :=
  { id := u.id.getD s.id
    title := u.title.getD s.title
    createdAt := u.createdAt.getD s.createdAt
    updatedAt := now
    messages := u.messages.getD s.messages
    uploadedFiles := u.uploadedFiles.getD s.uploadedFiles }

/-- Embedded from src/frontend/lib/utils/chatUtils.ts, updateChatSession
(lines 106-118): findIndex locates the first session with the given id and
that session alone is replaced; when findIndex yields -1 the stored list is
saved back unchanged. The stored session list is passed and returned
explicitly in place of localStorage. -/
def updateChatSession (chatId : String) (u : SessionUpdates) (now : Nat) :
    List ChatSession → List ChatSession
  | [] => []
  | s :: rest =>
    if s.id = chatId then applySessionUpdates s u now :: rest
    else s :: updateChatSession chatId u now rest

/-- The title refresh in addMessageToChat, lines 131-133 of
src/frontend/lib/utils/chatUtils.ts: the first user message retitles a
session still called New Chat with the first 50 characters of the message,
falling back to New Chat when that prefix is empty. -/
def retitle (s : ChatSession) (m : Message) : String :=
  if s.title = "New Chat" ∧ m.role = "user" then
    (if jsTake m.content 50 = "" then "New Chat" else jsTake m.content 50)
  else s.title

/-- Embedded from src/frontend/lib/utils/chatUtils.ts, addMessageToChat
(lines 123-138): the first session with the given id gets the message
appended, the conditional retitle, and a fresh updatedAt; when findIndex
yields -1 the stored list is unchanged. -/
def addMessageToChat (chatId : String) (m : Message) (now : Nat) :
    List ChatSession → List ChatSession
  | [] => []
  | s :: rest =>
    if s.id = chatId then
      { s with
        messages := s.messages ++ [m]
        title := retitle s m
        updatedAt := now } :: rest
    else s :: addMessageToChat chatId m now rest

/-- Modelled from the spec: the Document record of the Registry (design
document section 3); the backend registry implementation
(backend/utils, Supabase documents table) is not among the available
sources. -/
structure Document where
  content_hash : Nat
  filename : String
  file_size : Nat
  chunk_count : Nat
  conversation_id : Option String
  upload_timestamp : Nat
  last_indexed_timestamp : Nat
deriving DecidableEq

/-- Modelled from the spec: a chunk of the Chunk Store, an embedding vector
plus metadata mirroring the owning Document record (design document
section 3); the backend ChromaDB adapter is not among the available
sources. -/
structure Chunk where
  text : String
  embedding : List Int
  content_hash : Nat
  filename : String
  conversation_id : Option String
  upload_timestamp : Nat
  last_indexed_timestamp : Nat
deriving DecidableEq

/-- Modelled from the spec: the two durable stores, Registry and Chunk Store
(design document section 6). -/
structure SysState where
  registry : List Document
  chunkStore : List Chunk
deriving DecidableEq

/-- Modelled from the spec: Registry findByHash (section 4.2). -/
def findByHash (reg : List Document) (h : Nat) : Option Document :=
  reg.find? (fun d => d.content_hash == h)

/-- Modelled from the spec: Registry findAllByFilename (section 4.2). -/
def findAllByFilename (reg : List Document) (f : String) : List Document :=
  reg.filter (fun d => d.filename == f)

/-- Modelled from the spec: Registry create, atomic and unique-constrained on
content_hash (section 4.2); none models the DuplicateHash outcome. -/
def registryCreate (reg : List Document) (d : Document) : Option (List Document) :=
  if reg.any (fun e => e.content_hash == d.content_hash) then none
  else some (d :: reg)

/-- Modelled from the spec: Registry delete by hash (section 4.2). -/
def registryDelete (reg : List Document) (h : Nat) : List Document :=
  reg.filter (fun d => !(d.content_hash == h))

/-- Modelled from the spec: the metadata filter used for chunk deletion,
matching filename, conversation_id and content_hash (section 4.3 step 3). -/
structure MetaFilter where
  filename : String
  conversation_id : Option String
  content_hash : Nat
deriving DecidableEq

/-- Modelled from the spec: whether a chunk matches a metadata filter. -/
def chunkMatches (flt : MetaFilter) (c : Chunk) : Bool :=
  c.filename == flt.filename && c.conversation_id == flt.conversation_id &&
    c.content_hash == flt.content_hash

/-- Modelled from the spec: Chunk Store deleteWhere(metadata-filter)
(section 6, collaborator interface d). -/
def deleteWhere (store : List Chunk) (flt : MetaFilter) : List Chunk :=
  store.filter (fun c => !(chunkMatches flt c))

/-- Similarity score between a query vector and a chunk vector; the vector
index is external, so any fixed scoring function serves, here the dot
product. -/
def dot : List Int → List Int → Int
  | a :: as, b :: bs => a * b + dot as bs
  | _, _ => 0

/-- Insertion step of the by-score ordering used by the store query. -/
def insertByScore (v : List Int) (c : Chunk) : List Chunk → List Chunk
  | [] => [c]
  | d :: ds =>
    if dot v d.embedding ≤ dot v c.embedding then c :: d :: ds
    else d :: insertByScore v c ds

/-- Ranking of candidate chunks by descending similarity to the query
vector. -/
def sortByScore (v : List Int) : List Chunk → List Chunk
  | [] => []
  | c :: cs => insertByScore v c (sortByScore v cs)

/-- Modelled from the spec: Chunk Store query(vector, topK, metadataFilter)
(section 6): the conversation filter is applied inside the store query, on
the candidate set, before ranking and truncation to topK. -/
def chunkStoreQuery (store : List Chunk) (v : List Int) (topK : Nat)
    (convId : Option String) : List Chunk :=
  (sortByScore v (store.filter (fun c => c.conversation_id == convId))).take topK

/-- Modelled from the spec: the external collaborators of the pipeline, an
opaque content hasher, chunker and embedder (sections 4.1 and 6). -/
structure Env where
  hashBytes : List Nat → Nat
  chunkText : List Nat → String → List String
  embed : String → List Int

/-- Modelled from the spec: section 4.3 step 5, each text segment becomes a
chunk embedded and tagged with metadata mirroring the Document record. -/
def mkChunks (env : Env) (bytes : List Nat) (fn : String) (convId : Option String)
    (h : Nat) (now : Nat) : List Chunk :=
  (env.chunkText bytes fn).map (fun t =>
    { text := t
      embedding := env.embed t
      content_hash := h
      filename := fn
      conversation_id := convId
      upload_timestamp := now
      last_indexed_timestamp := now })

/-- Modelled from the spec: the structured ingestion outcome
(section 4.3 contract). -/
inductive Outcome where
  | created : Nat → Outcome
  | skippedDuplicate : Outcome
  | updated : Nat → Outcome
deriving DecidableEq

/-- Modelled from the spec: the fatal ingestion error of interest here,
ChunkStoreInsertFailure (section 7). -/
inductive IngestError where
  | chunkStoreInsertFailure : IngestError
deriving DecidableEq

/-- Modelled from the spec: section 4.3 step 3, the prior versions of a
filename within the requested scope. -/
def priorsOf (reg : List Document) (fn : String) (convId : Option String) :
    List Document :=
  (findAllByFilename reg fn).filter (fun d => d.conversation_id == convId)

/-- Modelled from the spec: the hashes of prior versions that differ from the
incoming hash, whose chunks are superseded (section 4.3 step 3). -/
def staleHashesOf (reg : List Document) (fn : String) (convId : Option String)
    (h : Nat) : List Nat :=
  ((priorsOf reg fn convId).map (fun d => d.content_hash)).filter (fun ph => !(ph == h))

/-- Modelled from the spec: the Document record written at section 4.3
step 6. -/
def newDocOf (bytes : List Nat) (fn : String) (convId : Option String) (h : Nat)
    (now : Nat) (chunkCount : Nat) : Document :=
  { content_hash := h
    filename := fn
    file_size := bytes.length
    chunk_count := chunkCount
    conversation_id := convId
    upload_timestamp := now
    last_indexed_timestamp := now }

/-- Modelled from the spec: steps 3-7 of the ingestion algorithm
(section 4.3), reached when step 2 did not skip. Stale chunks are deleted
first, the new chunks are built, and only if the chunk-store insert succeeds
(insertOk) is the registry written: create of the new record, or, when the
hash already exists for another scope, refresh of chunk_count and
last_indexed_timestamp, plus best-effort removal of superseded records. On
insert failure the error is returned with the registry untouched. -/
def ingestIndex (env : Env) (insertOk : Bool) (now : Nat) (st : SysState)
    (bytes : List Nat) (fn : String) (convId : Option String) (h : Nat) :
    Except IngestError Outcome × SysState :=
  let staleHashes := staleHashesOf st.registry fn convId h
  let store1 := staleHashes.foldl (fun s ph => deleteWhere s ⟨fn, convId, ph⟩) st.chunkStore
  let chunks := mkChunks env bytes fn convId h now
  if insertOk then
    let reg1 :=
      match registryCreate st.registry (newDocOf bytes fn convId h now chunks.length) with
      | some r => r
      | none =>
        st.registry.map (fun d =>
          if d.content_hash == h then
            { d with chunk_count := chunks.length, last_indexed_timestamp := now }
          else d)
    let reg2 := staleHashes.foldl (fun r ph => registryDelete r ph) reg1
    (.ok (if staleHashes.isEmpty then Outcome.created chunks.length
          else Outcome.updated chunks.length),
     { registry := reg2, chunkStore := store1 ++ chunks })
  else
    (.error .chunkStoreInsertFailure, { registry := st.registry, chunkStore := store1 })

/-- Modelled from the spec: the full ingestion pipeline
ingest(fileBytes, filename, conversationId) of section 4.3. Step 1 hashes the
bytes; step 2 returns Skipped(Duplicate) with no writes when the hash is
registered for the same scope; otherwise indexing proceeds. -/
def ingest (env : Env) (insertOk : Bool) (now : Nat) (st : SysState)
    (bytes : List Nat) (fn : String) (convId : Option String) :
    Except IngestError Outcome × SysState :=
  let h := env.hashBytes bytes
  let dup :=
    match findByHash st.registry h with
    | some d => d.conversation_id == convId
    | none => false
  if dup then (.ok .skippedDuplicate, st)
  else ingestIndex env insertOk now st bytes fn convId h

/-- Modelled from the spec: the Retrieval Service retrieve(query,
conversationId, topK) of section 4.4: the query is embedded and the store is
queried with the mandatory conversation_id filter. -/
def retrieve (env : Env) (st : SysState) (query : String) (convId : String)
    (topK : Nat) : List Chunk :=
  chunkStoreQuery st.chunkStore (env.embed query) topK (some convId)

/-- No two registry records share a content hash (registry invariant of
design document section 3). -/
def HashUnique (reg : List Document) : Prop :=
  ∀ d1 ∈ reg, ∀ d2 ∈ reg, d1.content_hash = d2.content_hash → d1 = d2

/-- The chunk/registry consistency invariant of design document section 3:
every live chunk carries the metadata of a registry record, and that record
is the current version for the chunk's filename within the chunk's scope, in
that every record for this filename and scope carries the same hash. -/
def ChunkConsistent (st : SysState) : Prop :=
  ∀ c ∈ st.chunkStore, ∃ d ∈ st.registry,
    d.content_hash = c.content_hash ∧ d.filename = c.filename ∧
    d.conversation_id = c.conversation_id ∧
    ∀ e ∈ st.registry, e.filename = c.filename →
      e.conversation_id = c.conversation_id → e.content_hash = c.content_hash

/-- Conjunction of the two store invariants. -/
def WellFormed (st : SysState) : Prop :=
  HashUnique st.registry ∧ ChunkConsistent st

/-- Modelled from the spec: one atomic action of a racing ingestion
(section 5): its step-2 duplicate check against the registry, or its
atomic registry create (which its chunk-store insert immediately
precedes). -/
inductive REv (n : Nat) where
  | check : Fin n → REv n
  | create : Fin n → REv n
deriving DecidableEq

/-- Outcome of one racing ingestion of the same bytes and scope. -/
inductive ROutcome where
  | created
  | skippedDuplicate
deriving DecidableEq

/-- State of the race between n concurrent ingestions of the same bytes,
filename and scope: whether the hash is registered, each ingestion's outcome
once it returned, and whether each ingestion's chunk set is live in the
store. -/
structure RaceState (n : Nat) where
  registered : Bool
  outcome : Fin n → Option ROutcome
  live : Fin n → Bool

/-- Modelled from the spec: one interleaving step of the race (section 5).
A check that finds the hash registered makes that ingestion return
Skipped(Duplicate) without writing chunks. A create executes atomically:
the first one registers the hash and leaves its just-inserted chunks live;
a later one observes DuplicateHash, treated as Skipped(Duplicate), and the
losing ingestion removes its just-written chunks (the cleanup the
specification directs implementations to attempt). -/
def raceStep {n : Nat} (s : RaceState n) : REv n → RaceState n
  | .check i =>
    if s.registered ∧ s.outcome i = none then
      { s with outcome := Function.update s.outcome i (some .skippedDuplicate) }
    else s
  | .create i =>
    match s.outcome i with
    | some _ => s
    | none =>
      if s.registered then
        { s with
          outcome := Function.update s.outcome i (some .skippedDuplicate)
          live := Function.update s.live i false }
      else
        { registered := true
          outcome := Function.update s.outcome i (some .created)
          live := Function.update s.live i true }

/-- Initial race state: hash unregistered, no outcomes, no live chunk
sets. -/
def raceInit (n : Nat) : RaceState n :=
  { registered := false, outcome := fun _ => none, live := fun _ => false }

/-- A full interleaved execution of the race: the events of the n ingestions
in an arbitrary order. -/
def raceRun {n : Nat} (evs : List (REv n)) : RaceState n :=
  evs.foldl raceStep (raceInit n)

/-- The state after the supersession scenario ingest(A), ingest(B) under one
filename and scope, from empty stores. -/
def midState (env : Env) (t1 t2 : Nat) (a b : List Nat) (f : String)
    (cid : Option String) : SysState :=
  (ingest env true t2 (ingest env true t1 ⟨[], []⟩ a f cid).2 b f cid).2

/-- The state after the repeated-supersession scenario ingest(A), ingest(B),
ingest(A) under one filename and scope, from empty stores. -/
def churnState (env : Env) (t1 t2 t3 : Nat) (a b : List Nat) (f : String)
    (cid : Option String) : SysState :=
  (ingest env true t3 (midState env t1 t2 a b f cid) a f cid).2

/-- Invariant of the race: a live chunk set belongs exactly to an ingestion
whose outcome is Created; before the hash is registered no ingestion has the
Created outcome; and once it is registered exactly one has. -/
def RaceInv {n : Nat} (s : RaceState n) : Prop :=
  (∀ i, s.live i = true ↔ s.outcome i = some .created) ∧
  (s.registered = false → ∀ i, s.outcome i ≠ some .created) ∧
  (s.registered = true → ∃ w, s.outcome w = some .created ∧
    ∀ j, j ≠ w → s.outcome j ≠ some .created)

/-- Modelled from the spec: k callers racing to create the same Document,
serialized by the atomic unique-constrained create (section 4.2); returns
how many of the k creates succeeded, and the final registry. -/
def seqCreates (d : Document) : Nat → List Document → Nat × List Document
  | 0, reg => (0, reg)
  | k + 1, reg =>
    match registryCreate reg d with
    | some reg1 =>
      let r := seqCreates d k reg1
      (r.1 + 1, r.2)
    | none => seqCreates d k reg

/-- A concrete collaborator environment used to exercise the model on closed
inputs: content length as digest, a fixed two-segment chunking, a fixed
embedding. -/
def sampleEnv : Env :=
  { hashBytes := fun l => l.length
    chunkText := fun _ _ => ["seg1", "seg2"]
    embed := fun _ => [1, 2] }

theorem findByHash_eq_none_iff {reg : List Document} {h : Nat} :
    findByHash reg h = none ↔ ∀ d ∈ reg, d.content_hash ≠ h := by
  simp [findByHash, List.find?_eq_none]

theorem mem_mkChunks {env : Env} {bytes : List Nat} {fn : String} {cid : Option String}
    {h now : Nat} {c : Chunk} (hc : c ∈ mkChunks env bytes fn cid h now) :
    c.content_hash = h ∧ c.filename = fn ∧ c.conversation_id = cid := by
  simp only [mkChunks, List.mem_map] at hc
  obtain ⟨t, _, rfl⟩ := hc
  exact ⟨rfl, rfl, rfl⟩

theorem mkChunks_length (env : Env) (bytes : List Nat) (fn : String) (cid : Option String)
    (h now : Nat) :
    (mkChunks env bytes fn cid h now).length = (env.chunkText bytes fn).length := by
  simp [mkChunks]

theorem mkChunks_filter_hash_self (env : Env) (bytes : List Nat) (fn : String)
    (cid : Option String) (h now : Nat) :
    (mkChunks env bytes fn cid h now).filter (fun c => c.content_hash == h)
      = mkChunks env bytes fn cid h now := by
  rw [List.filter_eq_self]
  intro c hc
  simp [(mem_mkChunks hc).1]

theorem not_mem_staleHashes (reg : List Document) (fn : String) (cid : Option String)
    (h : Nat) : h ∉ staleHashesOf reg fn cid h := by
  simp [staleHashesOf]

theorem mem_staleHashes_iff {reg : List Document} {fn : String} {cid : Option String}
    {h ph : Nat} :
    ph ∈ staleHashesOf reg fn cid h ↔
      (∃ p ∈ priorsOf reg fn cid, p.content_hash = ph) ∧ ph ≠ h := by
  simp only [staleHashesOf, List.mem_filter, List.mem_map]
  constructor
  · rintro ⟨⟨p, hp, rfl⟩, hne⟩
    exact ⟨⟨p, hp, rfl⟩, by simpa using hne⟩
  · rintro ⟨⟨p, hp, rfl⟩, hne⟩
    exact ⟨⟨p, hp, rfl⟩, by simpa using hne⟩

theorem mem_priorsOf_iff {reg : List Document} {fn : String} {cid : Option String}
    {p : Document} :
    p ∈ priorsOf reg fn cid ↔ p ∈ reg ∧ p.filename = fn ∧ p.conversation_id = cid := by
  constructor
  · intro hp
    rw [priorsOf, List.mem_filter] at hp
    obtain ⟨hp1, hp2⟩ := hp
    rw [findAllByFilename, List.mem_filter] at hp1
    exact ⟨hp1.1, by simpa using hp1.2, by simpa using hp2⟩
  · rintro ⟨h1, h2, h3⟩
    rw [priorsOf, List.mem_filter]
    refine ⟨?_, by simp [h3]⟩
    rw [findAllByFilename, List.mem_filter]
    exact ⟨h1, by simp [h2]⟩

theorem foldl_registryDelete (hs : List Nat) :
    ∀ reg : List Document,
      hs.foldl (fun r ph => registryDelete r ph) reg
        = reg.filter (fun d => !(hs.contains d.content_hash)) := by
  induction hs with
  | nil => intro reg; simp
  | cons h1 hs ih =>
    intro reg
    simp only [List.foldl_cons]
    rw [ih (registryDelete reg h1), registryDelete, List.filter_filter]
    apply List.filter_congr
    intro d _
    by_cases hd : d.content_hash = h1 <;> by_cases hcont : d.content_hash ∈ hs <;>
      simp [hd, hcont]

theorem foldl_deleteWhere (fn : String) (cid : Option String) (hs : List Nat) :
    ∀ store : List Chunk,
      hs.foldl (fun s ph => deleteWhere s ⟨fn, cid, ph⟩) store
        = store.filter (fun c =>
            !(c.filename == fn && c.conversation_id == cid && hs.contains c.content_hash)) := by
  induction hs with
  | nil => intro store; simp
  | cons h1 hs ih =>
    intro store
    simp only [List.foldl_cons]
    rw [ih (deleteWhere store ⟨fn, cid, h1⟩), deleteWhere, List.filter_filter]
    apply List.filter_congr
    intro c _
    simp only [chunkMatches]
    by_cases hf : c.filename = fn <;> by_cases hcv : c.conversation_id = cid <;>
      by_cases hc : c.content_hash = h1 <;> by_cases hcont : c.content_hash ∈ hs <;>
        simp [hf, hcv, hc, hcont]

theorem registryCreate_fresh {reg : List Document} {d : Document}
    (hfresh : findByHash reg d.content_hash = none) :
    registryCreate reg d = some (d :: reg) := by
  rw [registryCreate, if_neg]
  intro hany
  rw [List.any_eq_true] at hany
  obtain ⟨e, he, hbe⟩ := hany
  exact (findByHash_eq_none_iff.mp hfresh e he) (by simpa using hbe)

theorem registryCreate_dup {reg : List Document} {d : Document} {e : Document}
    (hfind : findByHash reg d.content_hash = some e) :
    registryCreate reg d = none := by
  rw [registryCreate, if_pos]
  rw [List.any_eq_true]
  refine ⟨e, List.mem_of_find?_eq_some hfind, ?_⟩
  simpa using List.find?_some hfind

theorem ingest_skip {env : Env} {ok : Bool} {now : Nat} {st : SysState} {bytes : List Nat}
    {fn : String} {convId : Option String} {d : Document}
    (hfind : findByHash st.registry (env.hashBytes bytes) = some d)
    (hconv : d.conversation_id = convId) :
    ingest env ok now st bytes fn convId = (.ok .skippedDuplicate, st) := by
  simp [ingest, hfind, hconv]

theorem ingest_of_not_found {env : Env} {ok : Bool} {now : Nat} {st : SysState}
    {bytes : List Nat} {fn : String} {convId : Option String}
    (hfind : findByHash st.registry (env.hashBytes bytes) = none) :
    ingest env ok now st bytes fn convId
      = ingestIndex env ok now st bytes fn convId (env.hashBytes bytes) := by
  simp [ingest, hfind]

theorem ingest_of_scope_mismatch {env : Env} {ok : Bool} {now : Nat} {st : SysState}
    {bytes : List Nat} {fn : String} {convId : Option String} {d : Document}
    (hfind : findByHash st.registry (env.hashBytes bytes) = some d)
    (hconv : d.conversation_id ≠ convId) :
    ingest env ok now st bytes fn convId
      = ingestIndex env ok now st bytes fn convId (env.hashBytes bytes) := by
  simp [ingest, hfind, hconv]

theorem ingestIndex_false_eq (env : Env) (now : Nat) (st : SysState) (bytes : List Nat)
    (fn : String) (convId : Option String) (h : Nat) :
    ingestIndex env false now st bytes fn convId h
      = (.error .chunkStoreInsertFailure,
         { registry := st.registry
           chunkStore := st.chunkStore.filter (fun c =>
             !(c.filename == fn && c.conversation_id == convId &&
               (staleHashesOf st.registry fn convId h).contains c.content_hash)) }) := by
  simp only [ingestIndex, Bool.false_eq_true, if_false]
  rw [foldl_deleteWhere]

theorem ingestIndex_true_eq (env : Env) (now : Nat) (st : SysState) (bytes : List Nat)
    (fn : String) (convId : Option String) (h : Nat)
    (hfresh : findByHash st.registry h = none) :
    ingestIndex env true now st bytes fn convId h
      = (.ok (if (staleHashesOf st.registry fn convId h).isEmpty
              then Outcome.created (mkChunks env bytes fn convId h now).length
              else Outcome.updated (mkChunks env bytes fn convId h now).length),
         { registry :=
             (newDocOf bytes fn convId h now (mkChunks env bytes fn convId h now).length
                 :: st.registry).filter
               (fun d => !((staleHashesOf st.registry fn convId h).contains d.content_hash))
           chunkStore :=
             st.chunkStore.filter (fun c =>
               !(c.filename == fn && c.conversation_id == convId &&
                 (staleHashesOf st.registry fn convId h).contains c.content_hash))
             ++ mkChunks env bytes fn convId h now }) := by
  have hcr : registryCreate st.registry
      (newDocOf bytes fn convId h now (mkChunks env bytes fn convId h now).length)
      = some (newDocOf bytes fn convId h now (mkChunks env bytes fn convId h now).length
          :: st.registry) :=
    registryCreate_fresh hfresh
  simp only [ingestIndex, if_true, hcr]
  rw [foldl_deleteWhere, foldl_registryDelete]

theorem ingestIndex_true_dup_eq (env : Env) (now : Nat) (st : SysState) (bytes : List Nat)
    (fn : String) (convId : Option String) (h : Nat) (e : Document)
    (hfind : findByHash st.registry h = some e) :
    ingestIndex env true now st bytes fn convId h
      = (.ok (if (staleHashesOf st.registry fn convId h).isEmpty
              then Outcome.created (mkChunks env bytes fn convId h now).length
              else Outcome.updated (mkChunks env bytes fn convId h now).length),
         { registry :=
             (st.registry.map (fun d =>
                 if d.content_hash == h then
                   { d with chunk_count := (mkChunks env bytes fn convId h now).length,
                            last_indexed_timestamp := now }
                 else d)).filter
               (fun d => !((staleHashesOf st.registry fn convId h).contains d.content_hash))
           chunkStore :=
             st.chunkStore.filter (fun c =>
               !(c.filename == fn && c.conversation_id == convId &&
                 (staleHashesOf st.registry fn convId h).contains c.content_hash))
             ++ mkChunks env bytes fn convId h now }) := by
  have hcr : registryCreate st.registry
      (newDocOf bytes fn convId h now (mkChunks env bytes fn convId h now).length) = none :=
    registryCreate_dup hfind
  simp only [ingestIndex, if_true, hcr]
  rw [foldl_deleteWhere, foldl_registryDelete]

theorem updateChatSession_of_absent (chatId : String) (u : SessionUpdates) (now : Nat) :
    ∀ sessions : List ChatSession, (∀ s ∈ sessions, s.id ≠ chatId) →
      updateChatSession chatId u now sessions = sessions := by
  intro sessions
  induction sessions with
  | nil => intro _; rfl
  | cons s rest ih =>
    intro habs
    have hs : s.id ≠ chatId := habs s (List.mem_cons_self s rest)
    simp only [updateChatSession, if_neg hs]
    rw [ih (fun t ht => habs t (List.mem_cons_of_mem s ht))]

theorem addMessageToChat_of_absent (chatId : String) (m : Message) (now : Nat) :
    ∀ sessions : List ChatSession, (∀ s ∈ sessions, s.id ≠ chatId) →
      addMessageToChat chatId m now sessions = sessions := by
  intro sessions
  induction sessions with
  | nil => intro _; rfl
  | cons s rest ih =>
    intro habs
    have hs : s.id ≠ chatId := habs s (List.mem_cons_self s rest)
    simp only [addMessageToChat, if_neg hs]
    rw [ih (fun t ht => habs t (List.mem_cons_of_mem s ht))]

/-- C9: the frontend chat client throws the error Question cannot be empty on
an empty or whitespace-only question, throws Conversation ID is required when
the conversation id is absent (or falsy-empty), both before any network
request is issued (the fetch lives only in the Except.ok branch of the
embedding), and every request body it does build carries exactly the supplied
conversation id. -/
theorem claim_C9_chat_client_validation (q : String) (cid : Option String) (t : Option Int) :
    (jsTrim q = "" → chatRequest q cid t = .error "Question cannot be empty") ∧
    (jsTrim q ≠ "" → (cid = none ∨ cid = some "") →
      chatRequest q cid t = .error "Conversation ID is required") ∧
    (∀ body, chatRequest q cid t = .ok body → cid = some body.conversation_id) := by
  refine ⟨?_, ?_, ?_⟩
  · intro htrim
    simp [chatRequest, htrim]
  · intro htrim hcid
    have hq : ¬(q = "" ∨ jsTrim q = "") := by
      rintro (rfl | h)
      · exact htrim rfl
      · exact htrim h
    rcases hcid with rfl | rfl
    · simp [chatRequest, if_neg hq]
    · simp [chatRequest, if_neg hq]
  · intro body hbody
    by_cases hq : q = "" ∨ jsTrim q = ""
    · simp [chatRequest, hq] at hbody
    · cases cid with
      | none => simp [chatRequest, if_neg hq] at hbody
      | some c =>
        by_cases hc : c = ""
        · simp [chatRequest, if_neg hq, hc] at hbody
        · simp [chatRequest, if_neg hq, if_neg hc] at hbody
          rw [← hbody]

theorem claim_C9_witness :
    chatRequest "   " (some "conv-1") none = .error "Question cannot be empty" ∧
    chatRequest "hi" none none = .error "Conversation ID is required" ∧
    (some "conv-1" : Option String) = some (ChatBody.conversation_id ⟨"hi", "conv-1", none⟩) := by
  refine ⟨?_, ?_, ?_⟩
  · exact (claim_C9_chat_client_validation "   " (some "conv-1") none).1 (by decide)
  · exact (claim_C9_chat_client_validation "hi" none none).2.1 (by decide) (Or.inl rfl)
  · exact (claim_C9_chat_client_validation "hi" (some "conv-1") none).2.2
      ⟨"hi", "conv-1", none⟩ (by decide)

/-- C10: with a chatId matching no stored session, addMessageToChat and
updateChatSession leave the stored session list unchanged: no session is
created and none is modified. -/
theorem claim_C10_missing_chat_id_frame (sessions : List ChatSession) (chatId : String)
    (u : SessionUpdates) (m : Message) (now1 now2 : Nat)
    (habs : ∀ s ∈ sessions, s.id ≠ chatId) :
    updateChatSession chatId u now1 sessions = sessions ∧
    addMessageToChat chatId m now2 sessions = sessions :=
  ⟨updateChatSession_of_absent chatId u now1 sessions habs,
   addMessageToChat_of_absent chatId m now2 sessions habs⟩

theorem claim_C10_witness :
    updateChatSession "missing" ⟨none, none, none, none, none, none⟩ 7
        [⟨"a", "New Chat", 1, 1, [], []⟩] = [⟨"a", "New Chat", 1, 1, [], []⟩] ∧
    addMessageToChat "missing" ⟨"m1", "user", "hello", 5, none⟩ 8
        [⟨"a", "New Chat", 1, 1, [], []⟩] = [⟨"a", "New Chat", 1, 1, [], []⟩] :=
  claim_C10_missing_chat_id_frame [⟨"a", "New Chat", 1, 1, [], []⟩] "missing"
    ⟨none, none, none, none, none, none⟩ ⟨"m1", "user", "hello", 5, none⟩ 7 8 (by decide)

/-- C6: the upload request built by the frontend client for an accepted file
contains exactly one form field, the file itself: no conversation scope
identifier is part of the document submission, although the call site passes
one (which the one-parameter uploadFile drops). -/
theorem claim_C6_upload_body_lacks_conversation_id :
    uploadFileRequest "notes.pdf" = .ok [("file", "notes.pdf")] ∧
    "conversation_id" ∉ [("file", "notes.pdf")].map Prod.fst := by
  constructor
  · decide
  · decide

/-- C7: the chat window lets the user pick .xlsx and .xls files, but the
client-side validation in uploadFile rejects both as unsupported file types,
so spreadsheet uploads never reach the backend chunker. -/
theorem claim_C7_spreadsheet_uploads_rejected :
    ".xlsx" ∈ chatWindowAcceptList ∧ ".xls" ∈ chatWindowAcceptList ∧
    uploadFileRequest "report.xlsx" =
      .error "Unsupported file type: .xlsx. Supported types: pdf, txt, docx, doc" ∧
    uploadFileRequest "report.xls" =
      .error "Unsupported file type: .xls. Supported types: pdf, txt, docx, doc" := by
  refine ⟨by decide, by decide, by decide, by decide⟩

theorem mem_insertByScore {v : List Int} {c x : Chunk} {l : List Chunk} :
    x ∈ insertByScore v c l ↔ x = c ∨ x ∈ l := by
  induction l with
  | nil => simp [insertByScore]
  | cons d ds ih =>
    simp only [insertByScore]
    by_cases hle : dot v d.embedding ≤ dot v c.embedding
    · simp [hle]
    · simp only [if_neg hle, List.mem_cons, ih]
      tauto

theorem mem_sortByScore {v : List Int} {l : List Chunk} {x : Chunk} :
    x ∈ sortByScore v l ↔ x ∈ l := by
  induction l with
  | nil => simp [sortByScore]
  | cons c cs ih => simp [sortByScore, mem_insertByScore, ih]

/-- C3: every chunk returned by the conversation-filtered store query carries
exactly the requesting conversation's scope tag, for every store content,
query vector and topK; and the Retrieval Service is definitionally the store
query with the mandatory conversation_id filter, so the isolation is enforced
at the chunk-store query rather than by filtering its results afterwards. -/
theorem claim_C3_scope_isolation (store : List Chunk) (v : List Int) (topK : Nat)
    (x : String) :
    (∀ c ∈ chunkStoreQuery store v topK (some x), c.conversation_id = some x) ∧
    (∀ (env : Env) (st : SysState) (q : String),
      retrieve env st q x topK
        = chunkStoreQuery st.chunkStore (env.embed q) topK (some x)) := by
  constructor
  · intro c hc
    have h1 : c ∈ sortByScore v (store.filter (fun c => c.conversation_id == some x)) :=
      List.take_subset topK _ hc
    rw [mem_sortByScore] at h1
    have h2 := List.mem_filter.mp h1
    simpa using h2.2
  · intro env st q
    rfl

theorem claim_C3_witness :
    (⟨"t", [1, 0], 5, "f.pdf", some "convX", 0, 0⟩ : Chunk) ∈
      chunkStoreQuery
        [⟨"t", [1, 0], 5, "f.pdf", some "convX", 0, 0⟩,
         ⟨"u", [9, 9], 6, "g.pdf", some "convY", 0, 0⟩] [1, 1] 2 (some "convX") ∧
    Chunk.conversation_id ⟨"t", [1, 0], 5, "f.pdf", some "convX", 0, 0⟩ = some "convX" := by
  refine ⟨by decide, ?_⟩
  exact (claim_C3_scope_isolation
      [⟨"t", [1, 0], 5, "f.pdf", some "convX", 0, 0⟩,
       ⟨"u", [9, 9], 6, "g.pdf", some "convY", 0, 0⟩] [1, 1] 2 "convX").1
    ⟨"t", [1, 0], 5, "f.pdf", some "convX", 0, 0⟩ (by decide)

/-- C8: retrieval against a conversation scope for which no chunk exists
returns the empty ranked list; the retrieval function is total, so no error
is possible, and the empty scope degrades to an empty result. -/
theorem claim_C8_empty_scope_retrieval (env : Env) (st : SysState) (q : String)
    (x : String) (topK : Nat)
    (hempty : ∀ c ∈ st.chunkStore, c.conversation_id ≠ some x) :
    retrieve env st q x topK = [] := by
  have hfilter : st.chunkStore.filter (fun c => c.conversation_id == some x) = [] := by
    rw [List.filter_eq_nil_iff]
    intro c hc
    simpa using hempty c hc
  simp [retrieve, chunkStoreQuery, hfilter, sortByScore]

theorem claim_C8_witness :
    retrieve sampleEnv ⟨[], [⟨"u", [9, 9], 6, "g.pdf", some "convY", 0, 0⟩]⟩
      "any question" "convX" 5 = [] :=
  claim_C8_empty_scope_retrieval sampleEnv
    ⟨[], [⟨"u", [9, 9], 6, "g.pdf", some "convY", 0, 0⟩]⟩ "any question" "convX" 5
    (by decide)

/-- C1: from a state in which the content hash is unregistered, its chunk set
absent and no prior version of the filename exists in the scope, ingesting
the bytes returns Created; ingesting the identical bytes again under the same
scope, under any second filename, returns Skipped(Duplicate) and leaves the
state untouched (the model performs no chunking, embedding or writes on that
path), and the store holds exactly the one chunk set for that hash. -/
theorem claim_C1_duplicate_ingest_skipped (env : Env) (now1 now2 : Nat) (st : SysState)
    (bytes : List Nat) (fn1 fn2 : String) (cid : Option String)
    (hfresh : findByHash st.registry (env.hashBytes bytes) = none)
    (hnoprior : staleHashesOf st.registry fn1 cid (env.hashBytes bytes) = [])
    (hnochunks : ∀ c ∈ st.chunkStore, c.content_hash ≠ env.hashBytes bytes) :
    (ingest env true now1 st bytes fn1 cid).1
      = .ok (.created (env.chunkText bytes fn1).length) ∧
    ingest env true now2 (ingest env true now1 st bytes fn1 cid).2 bytes fn2 cid
      = (.ok .skippedDuplicate, (ingest env true now1 st bytes fn1 cid).2) ∧
    ((ingest env true now1 st bytes fn1 cid).2.chunkStore.filter
        (fun c => c.content_hash == env.hashBytes bytes)).length
      = (env.chunkText bytes fn1).length := by
  have h1 : ingest env true now1 st bytes fn1 cid
      = (.ok (.created (mkChunks env bytes fn1 cid (env.hashBytes bytes) now1).length),
         { registry := newDocOf bytes fn1 cid (env.hashBytes bytes) now1
               (mkChunks env bytes fn1 cid (env.hashBytes bytes) now1).length :: st.registry
           chunkStore := st.chunkStore
             ++ mkChunks env bytes fn1 cid (env.hashBytes bytes) now1 }) := by
    rw [ingest_of_not_found hfresh,
      ingestIndex_true_eq env now1 st bytes fn1 cid (env.hashBytes bytes) hfresh]
    simp [hnoprior]
  refine ⟨?_, ?_, ?_⟩
  · rw [h1, mkChunks_length]
  · rw [h1]
    have hfind2 : findByHash
        (newDocOf bytes fn1 cid (env.hashBytes bytes) now1
            (mkChunks env bytes fn1 cid (env.hashBytes bytes) now1).length :: st.registry)
        (env.hashBytes bytes)
        = some (newDocOf bytes fn1 cid (env.hashBytes bytes) now1
            (mkChunks env bytes fn1 cid (env.hashBytes bytes) now1).length) := by
      simp [findByHash, newDocOf, List.find?_cons]
    exact ingest_skip hfind2 rfl
  · rw [h1]
    simp only [List.filter_append, List.length_append]
    have hz : st.chunkStore.filter (fun c => c.content_hash == env.hashBytes bytes) = [] := by
      rw [List.filter_eq_nil_iff]
      intro c hc
      simpa using hnochunks c hc
    rw [hz, mkChunks_filter_hash_self, mkChunks_length]
    simp

theorem claim_C1_witness :
    (ingest sampleEnv true 10 ⟨[], []⟩ [7, 7, 7] "a.pdf" (some "conv1")).1
      = .ok (.created 2) ∧
    ingest sampleEnv true 11 (ingest sampleEnv true 10 ⟨[], []⟩ [7, 7, 7] "a.pdf"
        (some "conv1")).2 [7, 7, 7] "b.pdf" (some "conv1")
      = (.ok .skippedDuplicate,
         (ingest sampleEnv true 10 ⟨[], []⟩ [7, 7, 7] "a.pdf" (some "conv1")).2) ∧
    ((ingest sampleEnv true 10 ⟨[], []⟩ [7, 7, 7] "a.pdf" (some "conv1")).2.chunkStore.filter
        (fun c => c.content_hash == sampleEnv.hashBytes [7, 7, 7])).length = 2 :=
  claim_C1_duplicate_ingest_skipped sampleEnv 10 11 ⟨[], []⟩ [7, 7, 7] "a.pdf" "b.pdf"
    (some "conv1") (by decide) (by decide) (by decide)

/-- C5: an ingestion whose chunk-store insert fails performs no registry
write and returns the fatal ChunkStoreInsertFailure instead of success
(unless step 2 already skipped without attempting any write); and every
successful Created or Updated ingestion leaves a registry record for the new
hash whose chunk_count is covered by the chunks actually present in the
store, because the registry write only happens after the chunk-store write
completed. -/
theorem claim_C5_no_registry_write_on_insert_failure (env : Env) (now : Nat)
    (st : SysState) (bytes : List Nat) (fn : String) (cid : Option String) :
    ((ingest env false now st bytes fn cid).1 = .ok .skippedDuplicate ∧
       (ingest env false now st bytes fn cid).2 = st ∨
     (ingest env false now st bytes fn cid).1 = .error .chunkStoreInsertFailure ∧
       (ingest env false now st bytes fn cid).2.registry = st.registry) ∧
    (∀ out st2 n, ingest env true now st bytes fn cid = (.ok out, st2) →
      (out = .created n ∨ out = .updated n) →
      ∃ d ∈ st2.registry, d.content_hash = env.hashBytes bytes ∧ d.chunk_count = n ∧
        n ≤ (st2.chunkStore.filter
              (fun c => c.content_hash == env.hashBytes bytes)).length) := by
  constructor
  · cases hfind : findByHash st.registry (env.hashBytes bytes) with
    | some d =>
      by_cases hdc : d.conversation_id = cid
      · left
        rw [ingest_skip hfind hdc]
        exact ⟨rfl, rfl⟩
      · right
        rw [ingest_of_scope_mismatch hfind hdc,
          ingestIndex_false_eq env now st bytes fn cid (env.hashBytes bytes)]
        exact ⟨rfl, rfl⟩
    | none =>
      right
      rw [ingest_of_not_found hfind,
        ingestIndex_false_eq env now st bytes fn cid (env.hashBytes bytes)]
      exact ⟨rfl, rfl⟩
  · intro out st2 n hrun hout
    cases hfind : findByHash st.registry (env.hashBytes bytes) with
    | some e =>
      by_cases hdc : e.conversation_id = cid
      · rw [ingest_skip hfind hdc] at hrun
        rw [Prod.mk.injEq] at hrun
        have hsk : out = Outcome.skippedDuplicate :=
          (Except.ok.inj hrun.1).symm
        rcases hout with h | h <;> rw [hsk] at h <;> exact absurd h (by simp)
      · rw [ingest_of_scope_mismatch hfind hdc,
          ingestIndex_true_dup_eq env now st bytes fn cid (env.hashBytes bytes) e hfind]
          at hrun
        rw [Prod.mk.injEq] at hrun
        obtain ⟨hfst, hst2⟩ := hrun
        have hlen : n = (mkChunks env bytes fn cid (env.hashBytes bytes) now).length := by
          by_cases hemp : (staleHashesOf st.registry fn cid (env.hashBytes bytes)).isEmpty
          · rw [if_pos hemp] at hfst
            have : Outcome.created
                (mkChunks env bytes fn cid (env.hashBytes bytes) now).length = out := by
              exact Except.ok.inj hfst
            rcases hout with h | h <;> rw [h] at this <;> first
              | exact (Outcome.created.inj this).symm
              | exact absurd this (by simp)
          · rw [if_neg hemp] at hfst
            have : Outcome.updated
                (mkChunks env bytes fn cid (env.hashBytes bytes) now).length = out := by
              exact Except.ok.inj hfst
            rcases hout with h | h <;> rw [h] at this <;> first
              | exact (Outcome.updated.inj this).symm
              | exact absurd this (by simp)
        have he_mem : e ∈ st.registry := List.mem_of_find?_eq_some hfind
        have he_hash : e.content_hash = env.hashBytes bytes := by
          simpa using List.find?_some hfind
        refine ⟨{ e with
            chunk_count := (mkChunks env bytes fn cid (env.hashBytes bytes) now).length,
            last_indexed_timestamp := now }, ?_, by simpa using he_hash, by simp [hlen], ?_⟩
        · rw [← hst2]
          simp only [List.mem_filter]
          constructor
          · rw [List.mem_map]
            refine ⟨e, he_mem, ?_⟩
            simp [he_hash]
          · have : ¬(env.hashBytes bytes ∈
                staleHashesOf st.registry fn cid (env.hashBytes bytes)) :=
              not_mem_staleHashes st.registry fn cid (env.hashBytes bytes)
            simpa [he_hash] using this
        · rw [← hst2]
          simp only [List.filter_append, List.length_append, mkChunks_filter_hash_self]
          rw [hlen]
          exact Nat.le_add_left _ _
    | none =>
      rw [ingest_of_not_found hfind,
        ingestIndex_true_eq env now st bytes fn cid (env.hashBytes bytes) hfind] at hrun
      rw [Prod.mk.injEq] at hrun
      obtain ⟨hfst, hst2⟩ := hrun
      have hlen : n = (mkChunks env bytes fn cid (env.hashBytes bytes) now).length := by
        by_cases hemp : (staleHashesOf st.registry fn cid (env.hashBytes bytes)).isEmpty
        · rw [if_pos hemp] at hfst
          have : Outcome.created
              (mkChunks env bytes fn cid (env.hashBytes bytes) now).length = out :=
            Except.ok.inj hfst
          rcases hout with h | h <;> rw [h] at this <;> first
            | exact (Outcome.created.inj this).symm
            | exact absurd this (by simp)
        · rw [if_neg hemp] at hfst
          have : Outcome.updated
              (mkChunks env bytes fn cid (env.hashBytes bytes) now).length = out :=
            Except.ok.inj hfst
          rcases hout with h | h <;> rw [h] at this <;> first
            | exact (Outcome.updated.inj this).symm
            | exact absurd this (by simp)
      refine ⟨newDocOf bytes fn cid (env.hashBytes bytes) now
          (mkChunks env bytes fn cid (env.hashBytes bytes) now).length, ?_,
        rfl, by simp [newDocOf, hlen], ?_⟩
      · rw [← hst2]
        simp only [List.mem_filter]
        refine ⟨List.mem_cons_self _ _, ?_⟩
        have : ¬(env.hashBytes bytes ∈
            staleHashesOf st.registry fn cid (env.hashBytes bytes)) :=
          not_mem_staleHashes st.registry fn cid (env.hashBytes bytes)
        simpa [newDocOf] using this
      · rw [← hst2]
        simp only [List.filter_append, List.length_append, mkChunks_filter_hash_self]
        rw [hlen]
        exact Nat.le_add_left _ _

theorem claim_C5_witness :
    ((ingest sampleEnv false 9 ⟨[], []⟩ [4, 4] "a.pdf" (some "conv1")).1
        = .ok .skippedDuplicate ∧
      (ingest sampleEnv false 9 ⟨[], []⟩ [4, 4] "a.pdf" (some "conv1")).2 = ⟨[], []⟩ ∨
     (ingest sampleEnv false 9 ⟨[], []⟩ [4, 4] "a.pdf" (some "conv1")).1
        = .error .chunkStoreInsertFailure ∧
      (ingest sampleEnv false 9 ⟨[], []⟩ [4, 4] "a.pdf" (some "conv1")).2.registry = []) ∧
    (∃ d ∈ (ingest sampleEnv true 9 ⟨[], []⟩ [4, 4] "a.pdf" (some "conv1")).2.registry,
      d.content_hash = sampleEnv.hashBytes [4, 4] ∧ d.chunk_count = 2 ∧
      2 ≤ ((ingest sampleEnv true 9 ⟨[], []⟩ [4, 4] "a.pdf"
            (some "conv1")).2.chunkStore.filter
          (fun c => c.content_hash == sampleEnv.hashBytes [4, 4])).length) := by
  have hmain := claim_C5_no_registry_write_on_insert_failure sampleEnv 9 ⟨[], []⟩ [4, 4]
    "a.pdf" (some "conv1")
  refine ⟨hmain.1, ?_⟩
  exact hmain.2 (.created 2)
    (ingest sampleEnv true 9 ⟨[], []⟩ [4, 4] "a.pdf" (some "conv1")).2 2 (by decide)
    (Or.inl rfl)

theorem raceStep_registered_mono {n : Nat} (s : RaceState n) (e : REv n)
    (hs : s.registered = true) : (raceStep s e).registered = true := by
  cases e with
  | check i =>
    by_cases hc : s.registered = true ∧ s.outcome i = none
    · simp only [raceStep, if_pos hc]
      exact hs
    · simp only [raceStep, if_neg hc]
      exact hs
  | create i =>
    cases ho : s.outcome i with
    | some v =>
      simp only [raceStep, ho]
      exact hs
    | none =>
      simp only [raceStep, ho]
      rw [if_pos hs]
      exact hs

theorem raceRegistered_mono {n : Nat} (l : List (REv n)) :
    ∀ s : RaceState n, s.registered = true → (l.foldl raceStep s).registered = true := by
  induction l with
  | nil => intro s hs; exact hs
  | cons e rest ih =>
    intro s hs
    exact ih (raceStep s e) (raceStep_registered_mono s e hs)

theorem raceStep_outcome_persists {n : Nat} (s : RaceState n) (e : REv n) (j : Fin n)
    (v : ROutcome) (hj : s.outcome j = some v) : (raceStep s e).outcome j = some v := by
  cases e with
  | check i =>
    by_cases hc : s.registered = true ∧ s.outcome i = none
    · simp only [raceStep, if_pos hc]
      by_cases hji : j = i
      · subst hji
        rw [hc.2] at hj
        exact absurd hj (by simp)
      · rw [Function.update_noteq hji]
        exact hj
    · simp only [raceStep, if_neg hc]
      exact hj
  | create i =>
    cases ho : s.outcome i with
    | some w =>
      simp only [raceStep, ho]
      exact hj
    | none =>
      have hji : j ≠ i := by
        intro hji
        subst hji
        rw [ho] at hj
        exact absurd hj (by simp)
      simp only [raceStep, ho]
      by_cases hr : s.registered = true
      · rw [if_pos hr]
        simp only
        rw [Function.update_noteq hji]
        exact hj
      · rw [if_neg hr]
        simp only
        rw [Function.update_noteq hji]
        exact hj

theorem raceOutcome_persists {n : Nat} (l : List (REv n)) :
    ∀ (s : RaceState n) (j : Fin n) (v : ROutcome), s.outcome j = some v →
      (l.foldl raceStep s).outcome j = some v := by
  induction l with
  | nil => intro s j v hj; exact hj
  | cons e rest ih =>
    intro s j v hj
    exact ih (raceStep s e) j v (raceStep_outcome_persists s e j v hj)

theorem raceStep_create_some {n : Nat} (s : RaceState n) (j : Fin n) :
    (raceStep s (REv.create j)).outcome j ≠ none := by
  cases hsj : s.outcome j with
  | some w =>
    rw [raceStep_outcome_persists s (REv.create j) j w hsj]
    simp
  | none =>
    simp only [raceStep, hsj]
    by_cases hr : s.registered = true
    · rw [if_pos hr]
      dsimp only
      rw [Function.update_same]
      simp
    · rw [if_neg hr]
      dsimp only
      rw [Function.update_same]
      simp

theorem raceOutcome_total {n : Nat} (l : List (REv n)) :
    ∀ (s : RaceState n) (j : Fin n), REv.create j ∈ l →
      (l.foldl raceStep s).outcome j ≠ none := by
  induction l with
  | nil =>
    intro s j hj
    exact absurd hj (List.not_mem_nil _)
  | cons e rest ih =>
    intro s j hj
    simp only [List.foldl_cons]
    by_cases hej : e = REv.create j
    · subst hej
      cases ho : (raceStep s (REv.create j)).outcome j with
      | none => exact absurd ho (raceStep_create_some s j)
      | some v =>
        rw [raceOutcome_persists rest (raceStep s (REv.create j)) j v ho]
        simp
    · have hjrest : REv.create j ∈ rest := by
        rcases List.mem_cons.mp hj with h | h
        · exact absurd h.symm hej
        · exact h
      exact ih (raceStep s e) j hjrest

theorem raceRegistered_of_create {n : Nat} (l : List (REv n)) :
    ∀ (s : RaceState n) (j : Fin n), REv.create j ∈ l → s.outcome j = none →
      (l.foldl raceStep s).registered = true := by
  induction l with
  | nil =>
    intro s j hj
    exact absurd hj (List.not_mem_nil _)
  | cons e rest ih =>
    intro s j hj hnone
    by_cases hreg : (raceStep s e).registered = true
    · exact raceRegistered_mono rest (raceStep s e) hreg
    · have hsreg : ¬s.registered = true :=
        fun h => hreg (raceStep_registered_mono s e h)
      have hej : e ≠ REv.create j := by
        intro he
        subst he
        apply hreg
        simp only [raceStep, hnone]
        rw [if_neg hsreg]
      have hjrest : REv.create j ∈ rest := by
        rcases List.mem_cons.mp hj with h | h
        · exact absurd h.symm hej
        · exact h
      have hnone2 : (raceStep s e).outcome j = none := by
        cases e with
        | check i =>
          by_cases hc : s.registered = true ∧ s.outcome i = none
          · exact absurd hc.1 hsreg
          · simp only [raceStep, if_neg hc]
            exact hnone
        | create i =>
          have hij : j ≠ i := by
            intro hji
            subst hji
            exact hej rfl
          cases ho : s.outcome i with
          | some v =>
            simp only [raceStep, ho]
            exact hnone
          | none =>
            simp only [raceStep, ho]
            rw [if_neg hsreg]
            simp only
            rw [Function.update_noteq hij]
            exact hnone
      exact ih (raceStep s e) j hjrest hnone2

theorem raceStep_inv {n : Nat} (s : RaceState n) (e : REv n) (h : RaceInv s) :
    RaceInv (raceStep s e) := by
  obtain ⟨hlive, hunreg, hreg⟩ := h
  cases e with
  | check i =>
    by_cases hc : s.registered = true ∧ s.outcome i = none
    · simp only [raceStep, if_pos hc, RaceInv]
      refine ⟨?_, ?_, ?_⟩
      · intro k
        by_cases hki : k = i
        · subst hki
          rw [Function.update_same]
          constructor
          · intro hl
            exact absurd ((hlive k).mp hl) (by rw [hc.2]; simp)
          · intro hcontra
            exact absurd hcontra (by simp)
        · rw [Function.update_noteq hki]
          exact hlive k
      · intro hfalse
        rw [hc.1] at hfalse
        exact absurd hfalse (by simp)
      · intro _
        obtain ⟨w, hw, huniq⟩ := hreg hc.1
        have hwi : w ≠ i := by
          intro hwi
          subst hwi
          rw [hc.2] at hw
          exact absurd hw (by simp)
        refine ⟨w, by rw [Function.update_noteq hwi]; exact hw, ?_⟩
        intro j hj
        by_cases hji : j = i
        · subst hji
          rw [Function.update_same]
          simp
        · rw [Function.update_noteq hji]
          exact huniq j hj
    · simp only [raceStep, if_neg hc]
      exact ⟨hlive, hunreg, hreg⟩
  | create i =>
    cases ho : s.outcome i with
    | some v =>
      simp only [raceStep, ho]
      exact ⟨hlive, hunreg, hreg⟩
    | none =>
      simp only [raceStep, ho]
      by_cases hr : s.registered = true
      · rw [if_pos hr]
        simp only [RaceInv]
        refine ⟨?_, ?_, ?_⟩
        · intro k
          by_cases hki : k = i
          · subst hki
            rw [Function.update_same, Function.update_same]
            simp
          · rw [Function.update_noteq hki, Function.update_noteq hki]
            exact hlive k
        · intro hfalse
          rw [hr] at hfalse
          exact absurd hfalse (by simp)
        · intro _
          obtain ⟨w, hw, huniq⟩ := hreg hr
          have hwi : w ≠ i := by
            intro hwi
            subst hwi
            rw [ho] at hw
            exact absurd hw (by simp)
          refine ⟨w, by rw [Function.update_noteq hwi]; exact hw, ?_⟩
          intro j hj
          by_cases hji : j = i
          · subst hji
            rw [Function.update_same]
            simp
          · rw [Function.update_noteq hji]
            exact huniq j hj
      · rw [if_neg hr]
        simp only [RaceInv]
        have hrf : s.registered = false := by
          cases hx : s.registered
          · rfl
          · exact absurd hx hr
        refine ⟨?_, ?_, ?_⟩
        · intro k
          by_cases hki : k = i
          · subst hki
            rw [Function.update_same, Function.update_same]
            simp
          · rw [Function.update_noteq hki, Function.update_noteq hki]
            exact hlive k
        · intro hfalse
          exact absurd hfalse (by simp)
        · intro _
          refine ⟨i, by rw [Function.update_same], ?_⟩
          intro j hj
          rw [Function.update_noteq hj]
          exact hunreg hrf j

theorem raceInv_run_aux {n : Nat} (l : List (REv n)) :
    ∀ s : RaceState n, RaceInv s → RaceInv (l.foldl raceStep s) := by
  induction l with
  | nil => intro s hs; exact hs
  | cons e rest ih =>
    intro s hs
    exact ih (raceStep s e) (raceStep_inv s e hs)

theorem raceInv_init (n : Nat) : RaceInv (raceInit n) := by
  refine ⟨?_, ?_, ?_⟩
  · intro i
    simp [raceInit]
  · intro _ i
    simp [raceInit]
  · intro hcontra
    exact absurd hcontra (by simp [raceInit])

theorem seqCreates_of_present (d e : Document) :
    ∀ (k : Nat) (reg : List Document), findByHash reg d.content_hash = some e →
      seqCreates d k reg = (0, reg) := by
  intro k
  induction k with
  | zero => intro reg _; rfl
  | succ k ih =>
    intro reg hfind
    simp only [seqCreates, registryCreate_dup hfind]
    exact ih reg hfind

theorem seqCreates_fresh (d : Document) (k : Nat) (reg : List Document) (hk : 0 < k)
    (hfresh : findByHash reg d.content_hash = none) :
    (seqCreates d k reg).1 = 1 := by
  cases k with
  | zero => exact absurd hk (by simp)
  | succ k =>
    simp only [seqCreates, registryCreate_fresh hfresh]
    have hpresent : findByHash (d :: reg) d.content_hash = some d := by
      simp [findByHash, List.find?_cons]
    rw [seqCreates_of_present d d k (d :: reg) hpresent]

/-- C4: in every interleaved execution of N concurrent ingestions of the same
bytes, filename and scope in which each ingestion completes its atomic
registry create, exactly one ingestion ends with the Created outcome and the
remaining N-1 end with Skipped(Duplicate), with only the winner's chunk set
live; and the atomic unique-constrained registry create serializes k racing
creators of the same hash so that exactly one create succeeds. -/
theorem claim_C4_concurrent_duplicate_race (n : Nat) (evs : List (REv n)) (k : Nat)
    (reg : List Document) (d : Document)
    (hn : 0 < n) (hevs : ∀ i : Fin n, REv.create i ∈ evs) (hk : 0 < k)
    (hfresh : findByHash reg d.content_hash = none) :
    (∃ w : Fin n, (raceRun evs).outcome w = some .created ∧
      (raceRun evs).live w = true ∧
      ∀ j : Fin n, j ≠ w → (raceRun evs).outcome j = some .skippedDuplicate ∧
        (raceRun evs).live j = false) ∧
    (seqCreates d k reg).1 = 1 := by
  constructor
  · have hinv : RaceInv (raceRun evs) :=
      raceInv_run_aux evs (raceInit n) (raceInv_init n)
    have hreg : (raceRun evs).registered = true :=
      raceRegistered_of_create evs (raceInit n) ⟨0, hn⟩ (hevs ⟨0, hn⟩) rfl
    obtain ⟨w, hw, huniq⟩ := hinv.2.2 hreg
    refine ⟨w, hw, (hinv.1 w).mpr hw, ?_⟩
    intro j hj
    cases ho : (raceRun evs).outcome j with
    | none => exact absurd ho (raceOutcome_total evs (raceInit n) j (hevs j))
    | some v =>
      cases v with
      | created => exact absurd ho (huniq j hj)
      | skippedDuplicate =>
        refine ⟨rfl, ?_⟩
        cases hl : (raceRun evs).live j with
        | false => rfl
        | true =>
          have := (hinv.1 j).mp hl
          rw [ho] at this
          exact absurd this (by simp)
  · exact seqCreates_fresh d k reg hk hfresh

theorem claim_C4_witness :
    (∃ w : Fin 2,
      (raceRun [REv.check 0, REv.check 1, REv.create 0, REv.create 1]).outcome w
        = some .created ∧
      (raceRun [REv.check 0, REv.check 1, REv.create 0, REv.create 1]).live w = true ∧
      ∀ j : Fin 2, j ≠ w →
        (raceRun [REv.check 0, REv.check 1, REv.create 0, REv.create 1]).outcome j
          = some .skippedDuplicate ∧
        (raceRun [REv.check 0, REv.check 1, REv.create 0, REv.create 1]).live j = false) ∧
    (seqCreates ⟨5, "f.pdf", 3, 2, some "conv1", 0, 0⟩ 2 []).1 = 1 :=
  claim_C4_concurrent_duplicate_race 2 [REv.check 0, REv.check 1, REv.create 0, REv.create 1]
    2 [] ⟨5, "f.pdf", 3, 2, some "conv1", 0, 0⟩ (by decide) (by decide) (by decide)
    (by decide)

theorem ingest_of_not_found2 {env : Env} {ok : Bool} {now : Nat} {reg : List Document}
    {store : List Chunk} {bytes : List Nat} {fn : String} {convId : Option String}
    (hfind : findByHash reg (env.hashBytes bytes) = none) :
    ingest env ok now ⟨reg, store⟩ bytes fn convId
      = ingestIndex env ok now ⟨reg, store⟩ bytes fn convId (env.hashBytes bytes) :=
  ingest_of_not_found hfind

theorem ingestIndex_true_eq2 (env : Env) (now : Nat) (reg : List Document)
    (store : List Chunk) (bytes : List Nat) (fn : String) (convId : Option String)
    (h : Nat) (hfresh : findByHash reg h = none) :
    ingestIndex env true now ⟨reg, store⟩ bytes fn convId h
      = (.ok (if (staleHashesOf reg fn convId h).isEmpty
              then Outcome.created (mkChunks env bytes fn convId h now).length
              else Outcome.updated (mkChunks env bytes fn convId h now).length),
         ⟨(newDocOf bytes fn convId h now (mkChunks env bytes fn convId h now).length
              :: reg).filter
            (fun d => !((staleHashesOf reg fn convId h).contains d.content_hash)),
          store.filter (fun c =>
            !(c.filename == fn && c.conversation_id == convId &&
              (staleHashesOf reg fn convId h).contains c.content_hash))
          ++ mkChunks env bytes fn convId h now⟩) :=
  ingestIndex_true_eq env now ⟨reg, store⟩ bytes fn convId h hfresh

theorem mkChunks_filter_not_tagged (env : Env) (bytes : List Nat) (fn : String)
    (cid : Option String) (h now : Nat) (hs : List Nat) (hmem : h ∈ hs) :
    (mkChunks env bytes fn cid h now).filter
      (fun c => !(c.filename == fn && c.conversation_id == cid &&
        hs.contains c.content_hash)) = [] := by
  rw [List.filter_eq_nil_iff]
  intro c hc
  obtain ⟨h1, h2, h3⟩ := mem_mkChunks hc
  simp [h1, h2, h3, hmem]

theorem wellFormed_ingest (env : Env) (now : Nat) (st : SysState) (bytes : List Nat)
    (fn : String) (cid : Option String) (out : Outcome) (st2 : SysState)
    (hWF : WellFormed st)
    (hscope : ∀ d, findByHash st.registry (env.hashBytes bytes) = some d →
      d.conversation_id = cid)
    (hrun : ingest env true now st bytes fn cid = (.ok out, st2)) :
    WellFormed st2 := by
  cases hfind : findByHash st.registry (env.hashBytes bytes) with
  | some d =>
    rw [ingest_skip hfind (hscope d hfind), Prod.mk.injEq] at hrun
    rw [← hrun.2]
    exact hWF
  | none =>
    rw [ingest_of_not_found hfind,
      ingestIndex_true_eq env now st bytes fn cid (env.hashBytes bytes) hfind,
      Prod.mk.injEq] at hrun
    obtain ⟨-, hsnd⟩ := hrun
    rw [← hsnd]
    constructor
    · intro d1 hd1 d2 hd2 hh
      have hd1' := (List.mem_filter.mp hd1).1
      have hd2' := (List.mem_filter.mp hd2).1
      rcases List.mem_cons.mp hd1' with rfl | hd1r
      · rcases List.mem_cons.mp hd2' with rfl | hd2r
        · rfl
        · exact absurd (show d2.content_hash = env.hashBytes bytes from hh.symm)
            (findByHash_eq_none_iff.mp hfind d2 hd2r)
      · rcases List.mem_cons.mp hd2' with rfl | hd2r
        · exact absurd (show d1.content_hash = env.hashBytes bytes from hh)
            (findByHash_eq_none_iff.mp hfind d1 hd1r)
        · exact hWF.1 d1 hd1r d2 hd2r hh
    · intro c hc
      rcases List.mem_append.mp hc with hcold | hcnew
      · have hcmem := List.mem_of_mem_filter hcold
        have hcpred := (List.mem_filter.mp hcold).2
        obtain ⟨d0, hd0mem, hd0hash, hd0fn, hd0cid, hd0uniq⟩ := hWF.2 c hcmem
        have hchash_not : c.content_hash ∉
            staleHashesOf st.registry fn cid (env.hashBytes bytes) := by
          intro hmem
          obtain ⟨⟨p, hp, hphash⟩, -⟩ := mem_staleHashes_iff.mp hmem
          obtain ⟨hpreg, hpfn, hpcid⟩ := mem_priorsOf_iff.mp hp
          have hpd0 : p = d0 := hWF.1 p hpreg d0 hd0mem (by rw [hphash, hd0hash])
          have hcfn : c.filename = fn := by rw [← hd0fn, ← hpd0, hpfn]
          have hccid : c.conversation_id = cid := by rw [← hd0cid, ← hpd0, hpcid]
          simp [hcfn, hccid, hmem] at hcpred
        refine ⟨d0, ?_, hd0hash, hd0fn, hd0cid, ?_⟩
        · rw [List.mem_filter]
          refine ⟨List.mem_cons_of_mem _ hd0mem, ?_⟩
          simpa [hd0hash] using hchash_not
        · intro e hemem hefn hecid
          have he' := (List.mem_filter.mp hemem).1
          rcases List.mem_cons.mp he' with rfl | her
          · have hcfn : c.filename = fn := by
              rw [← hefn]
              rfl
            have hccid : c.conversation_id = cid := by
              rw [← hecid]
              rfl
            have hd0p : d0 ∈ priorsOf st.registry fn cid :=
              mem_priorsOf_iff.mpr ⟨hd0mem, by rw [hd0fn, hcfn], by rw [hd0cid, hccid]⟩
            by_cases hd0h : d0.content_hash = env.hashBytes bytes
            · show (newDocOf bytes fn cid (env.hashBytes bytes) now
                (mkChunks env bytes fn cid (env.hashBytes bytes) now).length).content_hash
                  = c.content_hash
              rw [← hd0hash, ← hd0h]
              rfl
            · exfalso
              apply hchash_not
              rw [← hd0hash]
              exact mem_staleHashes_iff.mpr ⟨⟨d0, hd0p, rfl⟩, hd0h⟩
          · exact hd0uniq e her hefn hecid
      · obtain ⟨hch, hcf, hcc⟩ := mem_mkChunks hcnew
        refine ⟨newDocOf bytes fn cid (env.hashBytes bytes) now
            (mkChunks env bytes fn cid (env.hashBytes bytes) now).length, ?_, ?_, ?_, ?_, ?_⟩
        · rw [List.mem_filter]
          refine ⟨List.mem_cons_self _ _, ?_⟩
          have := not_mem_staleHashes st.registry fn cid (env.hashBytes bytes)
          simpa [newDocOf] using this
        · rw [hch]
          rfl
        · rw [hcf]
          rfl
        · rw [hcc]
          rfl
        · intro e hemem hefn hecid
          have he' := (List.mem_filter.mp hemem).1
          have hepred := (List.mem_filter.mp hemem).2
          rcases List.mem_cons.mp he' with rfl | her
          · rw [hch]
            rfl
          · have hep : e ∈ priorsOf st.registry fn cid :=
              mem_priorsOf_iff.mpr ⟨her, by rw [hefn, hcf], by rw [hecid, hcc]⟩
            by_cases heh : e.content_hash = env.hashBytes bytes
            · rw [heh, hch]
            · exfalso
              have hmem : e.content_hash ∈
                  staleHashesOf st.registry fn cid (env.hashBytes bytes) :=
                mem_staleHashes_iff.mpr ⟨⟨e, hep, rfl⟩, heh⟩
              simp [hmem] at hepred

/-- C2: ingesting version A then version B under one filename and scope, from
empty stores, leaves zero chunks tagged with A's hash and a non-empty chunk
set tagged with B's hash, with the registry's only record for the filename
carrying B's hash; ingesting A again leaves the final live chunk set tagged
with A's hash only, with no chunk from the intermediate version and the
chunk/registry consistency invariant holding; and every successful same-scope
ingestion preserves that invariant (every live chunk's metadata matches the
registry record that is the current version for its filename and scope). -/
theorem claim_C2_update_supersession (env : Env) (t1 t2 t3 : Nat) (a b : List Nat)
    (f : String) (cid : Option String)
    (hne : env.hashBytes a ≠ env.hashBytes b)
    (ha : env.chunkText a f ≠ []) (hb : env.chunkText b f ≠ []) :
    ((midState env t1 t2 a b f cid).chunkStore.filter
        (fun c => c.content_hash == env.hashBytes a) = [] ∧
      (midState env t1 t2 a b f cid).chunkStore ≠ [] ∧
      (∀ c ∈ (midState env t1 t2 a b f cid).chunkStore,
        c.content_hash = env.hashBytes b) ∧
      (∀ d ∈ (midState env t1 t2 a b f cid).registry,
        d.content_hash = env.hashBytes b ∧ d.filename = f ∧ d.conversation_id = cid)) ∧
    ((churnState env t1 t2 t3 a b f cid).chunkStore.filter
        (fun c => c.content_hash == env.hashBytes b) = [] ∧
      (churnState env t1 t2 t3 a b f cid).chunkStore ≠ [] ∧
      (∀ c ∈ (churnState env t1 t2 t3 a b f cid).chunkStore,
        c.content_hash = env.hashBytes a) ∧
      (∀ d ∈ (churnState env t1 t2 t3 a b f cid).registry,
        d.content_hash = env.hashBytes a ∧ d.filename = f ∧ d.conversation_id = cid) ∧
      WellFormed (churnState env t1 t2 t3 a b f cid)) ∧
    (∀ (now : Nat) (st : SysState) (bytes : List Nat) (fn : String)
      (cid2 : Option String) (out : Outcome) (st2 : SysState), WellFormed st →
      (∀ d, findByHash st.registry (env.hashBytes bytes) = some d →
        d.conversation_id = cid2) →
      ingest env true now st bytes fn cid2 = (.ok out, st2) → WellFormed st2) := by
  have hne' : env.hashBytes b ≠ env.hashBytes a := Ne.symm hne
  have hfind1 : findByHash ([] : List Document) (env.hashBytes a) = none := rfl
  have hst1 : ingest env true t1 ⟨[], []⟩ a f cid
      = (.ok (.created (mkChunks env a f cid (env.hashBytes a) t1).length),
         ⟨[newDocOf a f cid (env.hashBytes a) t1
             (mkChunks env a f cid (env.hashBytes a) t1).length],
          mkChunks env a f cid (env.hashBytes a) t1⟩) := by
    rw [ingest_of_not_found2 hfind1,
      ingestIndex_true_eq2 env t1 [] [] a f cid (env.hashBytes a) hfind1]
    have hstale : staleHashesOf [] f cid (env.hashBytes a) = [] := rfl
    rw [hstale]
    simp
  have hfind2 : findByHash [newDocOf a f cid (env.hashBytes a) t1
      (mkChunks env a f cid (env.hashBytes a) t1).length] (env.hashBytes b) = none := by
    rw [findByHash_eq_none_iff]
    intro d hd
    rw [List.mem_singleton] at hd
    subst hd
    show env.hashBytes a ≠ env.hashBytes b
    exact hne
  have hstale2 : staleHashesOf [newDocOf a f cid (env.hashBytes a) t1
        (mkChunks env a f cid (env.hashBytes a) t1).length] f cid (env.hashBytes b)
      = [env.hashBytes a] := by
    simp [staleHashesOf, priorsOf, findAllByFilename, newDocOf, hne, hne']
  have hst2 : ingest env true t2
      (⟨[newDocOf a f cid (env.hashBytes a) t1
           (mkChunks env a f cid (env.hashBytes a) t1).length],
        mkChunks env a f cid (env.hashBytes a) t1⟩ : SysState) b f cid
      = (.ok (.updated (mkChunks env b f cid (env.hashBytes b) t2).length),
         ⟨[newDocOf b f cid (env.hashBytes b) t2
             (mkChunks env b f cid (env.hashBytes b) t2).length],
          mkChunks env b f cid (env.hashBytes b) t2⟩) := by
    rw [ingest_of_not_found2 hfind2,
      ingestIndex_true_eq2 env t2 _ _ b f cid (env.hashBytes b) hfind2, hstale2,
      mkChunks_filter_not_tagged env a f cid (env.hashBytes a) t1 [env.hashBytes a]
        (List.mem_singleton_self _)]
    simp [newDocOf, hne, hne']
  have hfind3 : findByHash [newDocOf b f cid (env.hashBytes b) t2
      (mkChunks env b f cid (env.hashBytes b) t2).length] (env.hashBytes a) = none := by
    rw [findByHash_eq_none_iff]
    intro d hd
    rw [List.mem_singleton] at hd
    subst hd
    show env.hashBytes b ≠ env.hashBytes a
    exact hne'
  have hstale3 : staleHashesOf [newDocOf b f cid (env.hashBytes b) t2
        (mkChunks env b f cid (env.hashBytes b) t2).length] f cid (env.hashBytes a)
      = [env.hashBytes b] := by
    simp [staleHashesOf, priorsOf, findAllByFilename, newDocOf, hne, hne']
  have hst3 : ingest env true t3
      (⟨[newDocOf b f cid (env.hashBytes b) t2
           (mkChunks env b f cid (env.hashBytes b) t2).length],
        mkChunks env b f cid (env.hashBytes b) t2⟩ : SysState) a f cid
      = (.ok (.updated (mkChunks env a f cid (env.hashBytes a) t3).length),
         ⟨[newDocOf a f cid (env.hashBytes a) t3
             (mkChunks env a f cid (env.hashBytes a) t3).length],
          mkChunks env a f cid (env.hashBytes a) t3⟩) := by
    rw [ingest_of_not_found2 hfind3,
      ingestIndex_true_eq2 env t3 _ _ a f cid (env.hashBytes a) hfind3, hstale3,
      mkChunks_filter_not_tagged env b f cid (env.hashBytes b) t2 [env.hashBytes b]
        (List.mem_singleton_self _)]
    simp [newDocOf, hne, hne']
  have hmid : midState env t1 t2 a b f cid
      = ⟨[newDocOf b f cid (env.hashBytes b) t2
            (mkChunks env b f cid (env.hashBytes b) t2).length],
         mkChunks env b f cid (env.hashBytes b) t2⟩ := by
    rw [midState, hst1]
    dsimp only
    rw [hst2]
  have hchurn : churnState env t1 t2 t3 a b f cid
      = ⟨[newDocOf a f cid (env.hashBytes a) t3
            (mkChunks env a f cid (env.hashBytes a) t3).length],
         mkChunks env a f cid (env.hashBytes a) t3⟩ := by
    rw [churnState, hmid, hst3]
  refine ⟨?_, ?_, ?_⟩
  · rw [hmid]
    refine ⟨?_, ?_, ?_, ?_⟩
    · rw [List.filter_eq_nil_iff]
      intro c hc
      obtain ⟨h1, -, -⟩ := mem_mkChunks hc
      simp [h1, hne']
    · simp [mkChunks, hb]
    · intro c hc
      exact (mem_mkChunks hc).1
    · intro d hd
      rw [List.mem_singleton] at hd
      subst hd
      exact ⟨rfl, rfl, rfl⟩
  · rw [hchurn]
    refine ⟨?_, ?_, ?_, ?_, ?_, ?_⟩
    · rw [List.filter_eq_nil_iff]
      intro c hc
      obtain ⟨h1, -, -⟩ := mem_mkChunks hc
      simp [h1, hne]
    · simp [mkChunks, ha]
    · intro c hc
      exact (mem_mkChunks hc).1
    · intro d hd
      rw [List.mem_singleton] at hd
      subst hd
      exact ⟨rfl, rfl, rfl⟩
    · intro d1 hd1 d2 hd2 _
      rw [List.mem_singleton] at hd1 hd2
      rw [hd1, hd2]
    · intro c hc
      obtain ⟨h1, h2, h3⟩ := mem_mkChunks hc
      refine ⟨newDocOf a f cid (env.hashBytes a) t3
          (mkChunks env a f cid (env.hashBytes a) t3).length,
        List.mem_singleton_self _, ?_, ?_, ?_, ?_⟩
      · rw [h1]
        rfl
      · rw [h2]
        rfl
      · rw [h3]
        rfl
      · intro e he _ _
        rw [List.mem_singleton] at he
        subst he
        rw [h1]
        rfl
  · intro now st bytes fn cid2 out st2 hWF hscope hrun
    exact wellFormed_ingest env now st bytes fn cid2 out st2 hWF hscope hrun

theorem claim_C2_witness :
    (midState sampleEnv 1 2 [7] [8, 8] "doc.pdf" (some "conv1")).chunkStore.filter
        (fun c => c.content_hash == sampleEnv.hashBytes [7]) = [] ∧
    (∀ c ∈ (churnState sampleEnv 1 2 3 [7] [8, 8] "doc.pdf" (some "conv1")).chunkStore,
      c.content_hash = sampleEnv.hashBytes [7]) ∧
    WellFormed (churnState sampleEnv 1 2 3 [7] [8, 8] "doc.pdf" (some "conv1")) := by
  have h := claim_C2_update_supersession sampleEnv 1 2 3 [7] [8, 8] "doc.pdf"
    (some "conv1") (by decide) (by decide) (by decide)
  exact ⟨h.1.1, h.2.1.2.2.1, h.2.1.2.2.2.2⟩

end RagApp
